import Mathlib

/-!
Shallow embedding of the CSV/TSV detector (internal/csv/detect.go and the
DropLastLine collaborator from internal/util) of the mimetype repository.

Bytes are modelled as natural numbers; byte slices as lists of naturals.
The sliding-window driver (slidingWindow.Process) is purely mechanical byte
plumbing: it visits every byte of the stream exactly once, in order, with a
guaranteed one-byte look-behind and three-byte look-ahead, honouring the
skip offsets returned by the per-byte callback and presenting a missing
byte (before the start or past the end of the stream) as a nil pointer.
The embedding flattens that driver into runScan, which performs the same
visit sequence on the whole input list: prev/next/next-next are the true
neighbouring stream bytes (none at the boundaries), and an offset of 1
skips the following byte, which then becomes the look-behind byte.
-/

namespace CsvDetect

/-- byte values used by the scanner (detect.go constants). -/
abbrev quoteB : Nat := 34

abbrev commentB : Nat := 35

abbrev svLineLimit : Nat := 10

abbrev lfB : Nat := 10

abbrev crB : Nat := 13

/-- detectState from detect.go.  The per-call fields prev/cur/next and the
derived nextIsFieldTerminator/isNewline flags are recomputed on every call
to read and never consulted across calls, so they are kept in a per-step
context (StepCtx) instead of the state.  recordFields is the Go map from
line index to field count, modelled as an association list. -/
structure DetectState where
  delimiter : Nat
  lineLimit : Int
  lineSize : Nat
  csvLineIdx : Nat
  quoteCount : Nat
  sawCsvDataOnCurrentLine : Bool
  isWithinInferredQuote : Bool
  isWithinExplicitQuote : Bool
  isWithinComment : Bool
  recordFields : List (Nat × Nat)
  complete : Bool
  invalid : Bool
deriving Repr, DecidableEq

/-- Go map membership test: _, ok := m[k]. -/
def rfHas (m : List (Nat × Nat)) (k : Nat) : Bool :=
  m.any (fun p => p.1 = k)

/-- Go map read with default zero: m[k]. -/
def rfGet (m : List (Nat × Nat)) (k : Nat) : Nat :=
  match m.find? (fun p => p.1 = k) with
  | some p => p.2
  | none => 0

/-- Go map write: m[k] = v. -/
def rfSet (m : List (Nat × Nat)) (k v : Nat) : List (Nat × Nat) :=
  if rfHas m k then m.map (fun p => if p.1 = k then (k, v) else p)
  else (k, v) :: m

def newDetectState (delimiter : Nat) (lineLimit : Int) : DetectState :=
  { delimiter := delimiter
    lineLimit := lineLimit
    lineSize := 0
    csvLineIdx := 0
    quoteCount := 0
    sawCsvDataOnCurrentLine := false
    isWithinInferredQuote := false
    isWithinExplicitQuote := false
    isWithinComment := false
    recordFields := []
    complete := false
    invalid := false }

/-- isByte from detect.go: nil-safe pointer dereference and compare. -/
def isByte (b : Option Nat) (c : Nat) : Bool :=
  match b with
  | none => false
  | some x => x = c

def markInvalid (d : DetectState) : DetectState :=
  { d with complete := true, invalid := true }

def markComplete (d : DetectState) : DetectState :=
  { d with complete := true }

def lineHasData (d : DetectState) : Bool :=
  rfHas d.recordFields d.csvLineIdx

def resetLine (d : DetectState) : DetectState :=
  { d with
    isWithinInferredQuote := false
    quoteCount := 0
    csvLineIdx := if d.sawCsvDataOnCurrentLine then d.csvLineIdx + 1 else d.csvLineIdx
    sawCsvDataOnCurrentLine := false
    lineSize := 0
    isWithinComment := false }

def handleNewline (d : DetectState) : DetectState :=
  if d.isWithinExplicitQuote then d
  else if d.lineLimit > 0 && (d.csvLineIdx : Int) ≥ d.lineLimit then markComplete d
  else if !d.isWithinComment && d.lineSize > 0 && !lineHasData d then markInvalid d
  else resetLine d

/-- startDataLine returns the updated state and whether the record entry for
the current line is new. -/
def startDataLine (d : DetectState) : DetectState × Bool :=
  let isNew := !rfHas d.recordFields d.csvLineIdx
  let d := if isNew then { d with recordFields := rfSet d.recordFields d.csvLineIdx 0 } else d
  ({ d with sawCsvDataOnCurrentLine := true }, isNew)

def incrementFields (d : DetectState) : DetectState :=
  let m := d.recordFields
  let m := if rfGet m d.csvLineIdx = 0 then rfSet m d.csvLineIdx 1 else m
  let m := rfSet m d.csvLineIdx (rfGet m d.csvLineIdx + 1)
  { d with recordFields := m, sawCsvDataOnCurrentLine := true }

/-- Per-step context: the byte being visited, plus the derived look-ahead
facts the handlers consult (detect.go computes these at the top of read). -/
structure StepCtx where
  cur : Nat
  nextIsQuote : Bool
  nextIsDelimiter : Bool
  nextIsFieldTerminator : Bool
  isNewline : Bool
  isWindowsNewline : Bool
deriving Repr, DecidableEq

/-- nextIsFieldTerminator from read: next is a linux newline, a windows
newline, the delimiter, or absent. -/
def nextTerm (delim cur : Nat) (next nextNext : Option Nat) : Bool :=
  (decide (cur ≠ crB) && isByte next lfB) ||
  (isByte next crB && isByte nextNext lfB) ||
  isByte next delim || next.isNone

def mkCtx (delim : Nat) (prev : Option Nat) (cur : Nat) (next nextNext : Option Nat) : StepCtx :=
  let isLinuxNewline := decide (cur = lfB) && !isByte prev crB
  let isWindowsNewline := decide (cur = crB) && isByte next lfB
  { cur := cur
    nextIsQuote := isByte next quoteB
    nextIsDelimiter := isByte next delim
    nextIsFieldTerminator := nextTerm delim cur next nextNext
    isNewline := isLinuxNewline || isWindowsNewline
    isWindowsNewline := isWindowsNewline }

def newField (ctx : StepCtx) (d : DetectState) : DetectState :=
  let d := { d with isWithinInferredQuote := false }
  let d :=
    if d.quoteCount = 1 then
      if !d.isWithinInferredQuote then markInvalid d else d
    else d
  let d := { d with quoteCount := 0 }
  let d := incrementFields d
  if !d.isWithinInferredQuote then
    if !ctx.nextIsQuote && !ctx.nextIsFieldTerminator then
      { d with isWithinInferredQuote := true }
    else d
  else d

def handleDataCharacter (ctx : StepCtx) (d : DetectState) : DetectState :=
  if ctx.cur = commentB && !d.isWithinExplicitQuote && !d.isWithinInferredQuote then
    { d with isWithinComment := true }
  else if ctx.cur = d.delimiter then
    if !d.isWithinExplicitQuote then newField ctx d else d
  else
    let p := startDataLine d
    if p.2 then
      if ctx.cur ≠ quoteB then { p.1 with isWithinInferredQuote := true } else p.1
    else p.1

/-- Shared tail of handleQuote: if neither quote mode remains open, the byte
after a just-closed quote must be a field terminator, else invalid. -/
def quoteTail (ctx : StepCtx) (d : DetectState) : DetectState × Nat :=
  if d.isWithinExplicitQuote || d.isWithinInferredQuote then (d, 0)
  else if ctx.nextIsFieldTerminator then (d, 0)
  else (markInvalid d, 0)

def handleQuote (ctx : StepCtx) (d : DetectState) : DetectState × Nat :=
  if d.isWithinComment then (d, 0)
  else
    let d := (startDataLine d).1
    if d.isWithinExplicitQuote then
      if ctx.nextIsQuote then (d, 1)
      else if ctx.nextIsFieldTerminator then
        quoteTail ctx { d with isWithinExplicitQuote := false, quoteCount := d.quoteCount + 1 }
      else (d, 0)
    else
      if d.isWithinInferredQuote then
        if ctx.nextIsDelimiter then
          quoteTail ctx
            { d with isWithinInferredQuote := false, quoteCount := d.quoteCount + 2 }
        else quoteTail ctx d
      else
        quoteTail ctx
          { d with
            isWithinExplicitQuote := true
            isWithinInferredQuote := false
            quoteCount := d.quoteCount + 1 }

def processLineChar (ctx : StepCtx) (d : DetectState) : DetectState × Nat :=
  if ctx.cur = quoteB then handleQuote ctx d
  else if !d.isWithinComment then (handleDataCharacter ctx d, 0)
  else (d, 0)

/-- Dispatch of read on the classified byte: newline handling (skipping the
paired line-feed of a windows newline) or line-character processing. -/
def stepCore (ctx : StepCtx) (d : DetectState) : DetectState × Nat :=
  if ctx.isNewline then (handleNewline d, if ctx.isWindowsNewline then 1 else 0)
  else processLineChar ctx { d with lineSize := d.lineSize + 1 }

/-- read from detect.go for one visited byte; returns the new state and the
number of extra bytes the driver must skip (0 or 1). -/
def readStep (prev : Option Nat) (cur : Nat) (next nextNext : Option Nat)
    (d : DetectState) : DetectState × Nat :=
  if d.complete then (d, 0)
  else if decide (cur = crB) && isByte prev lfB && next.isNone then (d, 0)
  else stepCore (mkCtx d.delimiter prev cur next nextNext) d

/-- The flattened sliding-window drive: visit every byte in order with its
true neighbours, honouring the skip offset (readStep only returns 0 or 1). -/
def runScan : Option Nat → List Nat → DetectState → DetectState
  | _, [], d => d
  | prev, [c], d => (readStep prev c none none d).1
  | prev, c :: c2 :: rest, d =>
    let s := readStep prev c (some c2) rest.head? d
    if s.2 = 0 then runScan (some c) (c2 :: rest) s.1
    else runScan (some c2) rest s.1

/-- First positive field count in record order (the Go code takes the first
positive value met while ranging over the map; the final verdict does not
depend on the iteration order). -/
def firstPositive : List (Nat × Nat) → Nat
  | [] => 0
  | p :: rest => if p.2 > 0 then p.2 else firstPositive rest

def isValidCSV (d : DetectState) : Bool :=
  if d.invalid then false
  else
    let fieldCount := firstPositive d.recordFields
    let badFieldCount := d.recordFields.any (fun p => p.2 ≠ fieldCount)
    !badFieldCount && fieldCount > 1 && d.csvLineIdx > 1

/-- Backward scan of DropLastLine: indices i, i-1, ..., 1 are examined (the
Go loop condition is i > 0, so index 0 is never a cut point); the slice is
truncated just before the first newline found. -/
def dropScan (b : List Nat) : Nat → List Nat
  | 0 => b
  | i + 1 => if b.getD (i + 1) 0 = lfB then b.take (i + 1) else dropScan b i

/-- DropLastLine from internal/util: the length comparison casts len(b) to
uint32, modelled by reducing the length modulo 2^32. -/
def DropLastLine (b : List Nat) (readLimit : Nat) : List Nat :=
  if readLimit = 0 || b.length % 2 ^ 32 < readLimit then b
  else dropScan b (b.length - 1)

/-- prepSvReader: drop the last incomplete line, then byte-limit the reader
when a limit is given. -/
def prepSvReader (b : List Nat) (limit : Nat) : List Nat :=
  let r := DropLastLine b limit
  if limit > 0 then r.take limit else r

/-- Detect from detect.go. -/
def Detect (raw : List Nat) (delimiter : Nat) (limit : Nat) : Bool :=
  let lineLimit : Int := if limit > 0 then -1 else (svLineLimit : Int)
  let input := prepSvReader raw limit
  let st := runScan none input (newDetectState delimiter lineLimit)
  let st := resetLine st
  isValidCSV st

/-- The error channel of slidingWindow.Process: the only possible failure is
a non-EOF error from the reader, and the reader built by prepSvReader is an
in-memory bytes.Reader (possibly wrapped in a LimitReader) whose only read
condition is ordinary end-of-stream, so the scan always succeeds. -/
def processScan (input : List Nat) (d : DetectState) : Except Unit DetectState :=
  Except.ok (runScan none input d)

/-- Detect with the read-failure channel kept explicit: the panicking branch
of Detect corresponds to the error case, which processScan never produces. -/
def DetectE (raw : List Nat) (delimiter : Nat) (limit : Nat) : Except Unit Bool :=
  let lineLimit : Int := if limit > 0 then -1 else (svLineLimit : Int)
  match processScan (prepSvReader raw limit) (newDetectState delimiter lineLimit) with
  | Except.error e => Except.error e
  | Except.ok st => Except.ok (isValidCSV (resetLine st))

/-- String literal to byte list, for concrete test vectors (ASCII inputs). -/
def strBytes (s : String) : List Nat :=
  s.toList.map Char.toNat

end CsvDetect

namespace CsvDetect

/-! ### Supporting lemmas about single scan steps -/

theorem readStep_complete_state (p : Option Nat) (c : Nat) (nx nn : Option Nat)
    (d : DetectState) (h : d.complete = true) : readStep p c nx nn d = (d, 0) := by
  simp [readStep, h]

theorem runScan_complete : ∀ (p : Option Nat) (l : List Nat) (d : DetectState),
    d.complete = true → runScan p l d = d := by
  intro p l d
  induction p, l, d using runScan.induct with
  | case1 p d => intro _; rfl
  | case2 p c d =>
    intro h
    simp [runScan, readStep_complete_state _ _ _ _ _ h]
  | case3 p c c2 rest d s hs ih =>
    intro h
    have hsd : readStep p c (some c2) rest.head? d = (d, 0) :=
      readStep_complete_state _ _ _ _ _ h
    have h1 : s.1 = d := by rw [show s = (d, 0) from hsd]
    rw [h1] at ih
    rw [runScan]
    simp only [hsd]
    exact ih h
  | case4 p c c2 rest d s hs ih =>
    intro h
    have hsd : readStep p c (some c2) rest.head? d = (d, 0) :=
      readStep_complete_state _ _ _ _ _ h
    have h2 : s.2 = 0 := by rw [show s = (d, 0) from hsd]
    exact absurd h2 hs


theorem readStep_windows (p nn : Option Nat) (d : DetectState) (h : d.complete = false) :
    readStep p crB (some lfB) nn d = (handleNewline d, 1) := by
  rw [readStep, if_neg (by simp [h])]
  rw [if_neg (by simp)]
  rw [stepCore]
  rw [if_pos (by simp [mkCtx, isByte])]
  rw [if_pos (by simp [mkCtx, isByte])]

theorem readStep_linux (p nx nn : Option Nat) (d : DetectState) (h : d.complete = false)
    (hp : isByte p crB = false) : readStep p lfB nx nn d = (handleNewline d, 0) := by
  rw [readStep, if_neg (by simp [h])]
  rw [if_neg (by simp)]
  rw [stepCore]
  rw [if_pos (by simp [mkCtx, hp])]
  rw [if_neg (by simp [mkCtx, isByte])]

theorem readStep_data (p nx nn : Option Nat) (c : Nat) (d : DetectState)
    (h : d.complete = false) (hlf : c ≠ lfB)
    (hwin : (decide (c = crB) && isByte nx lfB) = false)
    (htrail : (decide (c = crB) && isByte p lfB && nx.isNone) = false) :
    readStep p c nx nn d
      = processLineChar (mkCtx d.delimiter p c nx nn) { d with lineSize := d.lineSize + 1 } := by
  rw [readStep, if_neg (by simp [h])]
  rw [if_neg (by simp [htrail])]
  rw [stepCore]
  rw [if_neg (by simp [mkCtx, hlf, hwin])]

theorem readStep_congr (p : Option Nat) (c : Nat) (nx nn nx' nn' : Option Nat)
    (d : DetectState)
    (hctx : mkCtx d.delimiter p c nx nn = mkCtx d.delimiter p c nx' nn')
    (htr : (decide (c = crB) && isByte p lfB && nx.isNone)
         = (decide (c = crB) && isByte p lfB && nx'.isNone)) :
    readStep p c nx nn d = readStep p c nx' nn' d := by
  rw [readStep, readStep, htr, hctx]

theorem quoteTail_snd (ctx : StepCtx) (d : DetectState) : (quoteTail ctx d).2 = 0 := by
  rw [quoteTail]
  split
  · rfl
  · split <;> rfl

theorem handleQuote_snd (ctx : StepCtx) (d : DetectState) (hq : ctx.nextIsQuote = false) :
    (handleQuote ctx d).2 = 0 := by
  simp only [handleQuote, hq]
  repeat' split
  all_goals first | rfl | exact quoteTail_snd _ _ | simp_all

theorem processLineChar_snd (ctx : StepCtx) (d : DetectState) (hq : ctx.nextIsQuote = false) :
    (processLineChar ctx d).2 = 0 := by
  simp only [processLineChar]
  repeat' split
  all_goals first | rfl | exact handleQuote_snd _ _ hq

theorem readStep_snd_zero (p nx nn : Option Nat) (c : Nat) (d : DetectState)
    (hwin : (decide (c = crB) && isByte nx lfB) = false)
    (hq : isByte nx quoteB = false) :
    (readStep p c nx nn d).2 = 0 := by
  rw [readStep]
  split
  · rfl
  split
  · rfl
  rw [stepCore]
  split
  · rw [if_neg (by simp [mkCtx, hwin])]
  · exact processLineChar_snd _ _ (by simp [mkCtx, hq])

theorem readStep_snd_ne_zero (p nx nn : Option Nat) (c : Nat) (d : DetectState)
    (h : (readStep p c nx nn d).2 ≠ 0) :
    isByte nx lfB = true ∨ isByte nx quoteB = true := by
  by_cases h1 : isByte nx lfB = true
  · exact Or.inl h1
  by_cases h2 : isByte nx quoteB = true
  · exact Or.inr h2
  exact absurd (readStep_snd_zero p nx nn c d (by simp [Bool.eq_false_iff.2 h1])
    (Bool.eq_false_iff.2 h2)) h

theorem rfHas_rfSet (m : List (Nat × Nat)) (k v : Nat) : rfHas (rfSet m k v) k = true := by
  rw [rfSet]
  split
  · rename_i h
    rw [rfHas] at h ⊢
    rw [List.any_eq_true] at h ⊢
    obtain ⟨p, hp, hpk⟩ := h
    refine ⟨(k, v), List.mem_map.2 ⟨p, hp, ?_⟩, by simp⟩
    simp [of_decide_eq_true hpk]
  · simp [rfHas]

theorem startDataLine_rfHas (d : DetectState) :
    rfHas (startDataLine d).1.recordFields (startDataLine d).1.csvLineIdx = true := by
  by_cases h : rfHas d.recordFields d.csvLineIdx = true
  · simp [startDataLine, h]
  · simp only [Bool.not_eq_true] at h
    simp [startDataLine, h, rfHas_rfSet]

theorem startDataLine_lineHasData (d : DetectState) :
    lineHasData (startDataLine d).1 = true :=
  startDataLine_rfHas d

theorem incrementFields_rfHas (d : DetectState) :
    rfHas (incrementFields d).recordFields (incrementFields d).csvLineIdx = true := by
  simp [incrementFields, rfHas_rfSet]

theorem newField_lineHasData (ctx : StepCtx) (d : DetectState) :
    lineHasData (newField ctx d) = true := by
  simp only [newField]
  repeat' split
  all_goals simp_all [lineHasData, incrementFields, markInvalid, rfHas_rfSet]

theorem quoteTail_recordFields (ctx : StepCtx) (d : DetectState) :
    (quoteTail ctx d).1.recordFields = d.recordFields := by
  simp only [quoteTail]
  repeat' split
  all_goals simp [markInvalid]

theorem quoteTail_csvLineIdx (ctx : StepCtx) (d : DetectState) :
    (quoteTail ctx d).1.csvLineIdx = d.csvLineIdx := by
  simp only [quoteTail]
  repeat' split
  all_goals simp [markInvalid]

theorem handleQuote_lineHasData (ctx : StepCtx) (d : DetectState)
    (hcom : d.isWithinComment = false) :
    lineHasData (handleQuote ctx d).1 = true := by
  simp only [handleQuote, hcom]
  repeat' split
  all_goals
    simp_all [quoteTail_recordFields, quoteTail_csvLineIdx, lineHasData, startDataLine_rfHas]

@[simp] theorem startDataLine_delimiter (d : DetectState) :
    (startDataLine d).1.delimiter = d.delimiter := by
  simp only [startDataLine]; split <;> rfl

@[simp] theorem startDataLine_csvLineIdx (d : DetectState) :
    (startDataLine d).1.csvLineIdx = d.csvLineIdx := by
  simp only [startDataLine]; split <;> rfl

@[simp] theorem startDataLine_isWithinExplicitQuote (d : DetectState) :
    (startDataLine d).1.isWithinExplicitQuote = d.isWithinExplicitQuote := by
  simp only [startDataLine]; split <;> rfl

@[simp] theorem startDataLine_isWithinInferredQuote (d : DetectState) :
    (startDataLine d).1.isWithinInferredQuote = d.isWithinInferredQuote := by
  simp only [startDataLine]; split <;> rfl

@[simp] theorem startDataLine_isWithinComment (d : DetectState) :
    (startDataLine d).1.isWithinComment = d.isWithinComment := by
  simp only [startDataLine]; split <;> rfl

@[simp] theorem startDataLine_complete (d : DetectState) :
    (startDataLine d).1.complete = d.complete := by
  simp only [startDataLine]; split <;> rfl

@[simp] theorem startDataLine_invalid (d : DetectState) :
    (startDataLine d).1.invalid = d.invalid := by
  simp only [startDataLine]; split <;> rfl

@[simp] theorem startDataLine_lineSize (d : DetectState) :
    (startDataLine d).1.lineSize = d.lineSize := by
  simp only [startDataLine]; split <;> rfl

@[simp] theorem startDataLine_lineLimit (d : DetectState) :
    (startDataLine d).1.lineLimit = d.lineLimit := by
  simp only [startDataLine]; split <;> rfl

@[simp] theorem startDataLine_quoteCount (d : DetectState) :
    (startDataLine d).1.quoteCount = d.quoteCount := by
  simp only [startDataLine]; split <;> rfl

@[simp] theorem quoteTail_delimiter (ctx : StepCtx) (d : DetectState) :
    (quoteTail ctx d).1.delimiter = d.delimiter := by
  simp only [quoteTail]
  repeat' split
  all_goals simp [markInvalid]

@[simp] theorem quoteTail_lineLimit (ctx : StepCtx) (d : DetectState) :
    (quoteTail ctx d).1.lineLimit = d.lineLimit := by
  simp only [quoteTail]
  repeat' split
  all_goals simp [markInvalid]

theorem newField_delimiter (ctx : StepCtx) (d : DetectState) :
    (newField ctx d).delimiter = d.delimiter := by
  simp only [newField]
  repeat' split
  all_goals simp [incrementFields, markInvalid]

theorem newField_csvLineIdx (ctx : StepCtx) (d : DetectState) :
    (newField ctx d).csvLineIdx = d.csvLineIdx := by
  simp only [newField]
  repeat' split
  all_goals simp [incrementFields, markInvalid]

theorem handleDataCharacter_delimiter (ctx : StepCtx) (d : DetectState) :
    (handleDataCharacter ctx d).delimiter = d.delimiter := by
  simp only [handleDataCharacter]
  repeat' split
  all_goals simp [newField_delimiter]

theorem handleDataCharacter_csvLineIdx (ctx : StepCtx) (d : DetectState) :
    (handleDataCharacter ctx d).csvLineIdx = d.csvLineIdx := by
  simp only [handleDataCharacter]
  repeat' split
  all_goals simp [newField_csvLineIdx]

theorem handleQuote_delimiter (ctx : StepCtx) (d : DetectState) :
    (handleQuote ctx d).1.delimiter = d.delimiter := by
  simp only [handleQuote]
  repeat' split
  all_goals simp

theorem handleQuote_csvLineIdx (ctx : StepCtx) (d : DetectState) :
    (handleQuote ctx d).1.csvLineIdx = d.csvLineIdx := by
  simp only [handleQuote]
  repeat' split
  all_goals simp [quoteTail_csvLineIdx]

theorem processLineChar_delimiter (ctx : StepCtx) (d : DetectState) :
    (processLineChar ctx d).1.delimiter = d.delimiter := by
  simp only [processLineChar]
  repeat' split
  all_goals simp [handleQuote_delimiter, handleDataCharacter_delimiter]

theorem processLineChar_csvLineIdx (ctx : StepCtx) (d : DetectState) :
    (processLineChar ctx d).1.csvLineIdx = d.csvLineIdx := by
  simp only [processLineChar]
  repeat' split
  all_goals simp [handleQuote_csvLineIdx, handleDataCharacter_csvLineIdx]

theorem handleNewline_delimiter (d : DetectState) :
    (handleNewline d).delimiter = d.delimiter := by
  simp only [handleNewline]
  repeat' split
  all_goals simp [markComplete, markInvalid, resetLine]

theorem readStep_delimiter (p : Option Nat) (c : Nat) (nx nn : Option Nat) (d : DetectState) :
    (readStep p c nx nn d).1.delimiter = d.delimiter := by
  rw [readStep]
  split
  · rfl
  split
  · rfl
  rw [stepCore]
  split
  · simp [handleNewline_delimiter]
  · simp [processLineChar_delimiter]

theorem runScan_delimiter : ∀ (p : Option Nat) (l : List Nat) (d : DetectState),
    (runScan p l d).delimiter = d.delimiter := by
  intro p l d
  induction p, l, d using runScan.induct with
  | case1 p d => rfl
  | case2 p c d => rw [runScan]; exact readStep_delimiter _ _ _ _ _
  | case3 p c c2 rest d s hs ih =>
    rw [runScan, if_pos hs]
    rw [ih]
    exact readStep_delimiter _ _ _ _ _
  | case4 p c c2 rest d s hs ih =>
    rw [runScan, if_neg hs]
    rw [ih]
    exact readStep_delimiter _ _ _ _ _

/-! ### Concrete test vectors (ASCII byte lists) -/

/-- "a,b\nc,dXXX\n" -/
def vecC2Input : List Nat := [97, 44, 98, 10, 99, 44, 100, 88, 88, 88, 10]

/-- "#comment\na,b,c\n1,2,3" -/
def vecC6True : List Nat :=
  [35, 99, 111, 109, 109, 101, 110, 116, 10, 97, 44, 98, 44, 99, 10, 49, 44, 50, 44, 51]

/-- "#a,b,c\n#1,2,3" -/
def vecC6False : List Nat := [35, 97, 44, 98, 44, 99, 10, 35, 49, 44, 50, 44, 51]

/-- "0,\"something \"\"else\"\" is happening\",0\n0,0,0" (escaped quotes inside
an explicitly quoted field). -/
def vecC5True : List Nat :=
  [48, 44, 34, 115, 111, 109, 101, 116, 104, 105, 110, 103, 32, 34, 34, 101, 108, 115,
   101, 34, 34, 32, 105, 115, 32, 104, 97, 112, 112, 101, 110, 105, 110, 103, 34, 44,
   48, 10, 48, 44, 48, 44, 48]

/-- "1,2,3\n1,\",\"2,3" (unbalanced mid-field quote with trailing characters). -/
def vecC5False : List Nat := [49, 44, 50, 44, 51, 10, 49, 44, 34, 44, 34, 50, 44, 51]

/-- eleven consistent "a,b\n" lines followed by an inconsistent "z,z,z" line. -/
def vecC4 : List Nat :=
  List.flatten (List.replicate 11 [97, 44, 98, 10]) ++ [122, 44, 122, 44, 122]

/-- "a,b\nc,d\nxx" -/
def vecC7 : List Nat := [97, 44, 98, 10, 99, 44, 100, 10, 120, 120]

/-- "a\rb\nc\rb\r": two carriage-return-delimited rows, the second ending in a
bare carriage return. -/
def vecC8 : List Nat := [97, 13, 98, 10, 99, 13, 98, 13]

/-- "a,b\nc,d" -/
def vecTwoRows : List Nat := [97, 44, 98, 10, 99, 44, 100]

/-! ### Claim theorems -/

/-- C10: for every finite input, delimiter and limit, Detect terminates with a
boolean (it is a total function of this embedding), and the read-failure
branch of Detect is unreachable: the explicit error channel of the scan,
driven by the in-memory reader whose only read condition is end-of-stream,
always returns ok with exactly Detect's boolean. -/
theorem detect_total_no_read_failure :
    ∀ (raw : List Nat) (delimiter limit : Nat),
      DetectE raw delimiter limit = Except.ok (Detect raw delimiter limit) :=
  fun _ _ _ => rfl

/-- C6: lines starting with the comment marker are excluded from field-count
comparison and the two-data-row requirement: a comment line followed by two
consistent data lines is detected, while an input of only comment lines is
not (no data rows). -/
theorem detect_comment_line_handling :
    Detect vecC6True 44 0 = true ∧ Detect vecC6False 44 0 = false :=
  ⟨by decide, by decide⟩

/-- Modelled from the claim's words for comparison with DropLastLine: remove
everything after the last newline found scanning backward from the end
(every position, including position 0, is a candidate cut point). -/
def specLastNewline (b : List Nat) : Nat → Option Nat
  | 0 => if b.getD 0 0 = lfB then some 0 else none
  | i + 1 => if b.getD (i + 1) 0 = lfB then some (i + 1) else specLastNewline b i

def specDropLastLine (b : List Nat) (limit : Nat) : List Nat :=
  if limit ≤ b.length then
    match specLastNewline b (b.length - 1) with
    | some i => b.take i
    | none => b
  else b

/-- C3 counterexample: on [newline, a] with limit 1 the code returns the input
unchanged (the backward scan never examines index 0), while the claim's
contract truncates at the newline at index 0. -/
theorem dropLastLine_spec_counterexample :
    DropLastLine [10, 97] 1 = [10, 97] ∧ specDropLastLine [10, 97] 1 = [] ∧
      DropLastLine [10, 97] 1 ≠ specDropLastLine [10, 97] 1 :=
  ⟨by decide, by decide, by decide⟩

/-- The amended backward scan: positions i, ..., 1 only; a newline at
position 0 is never a cut point. -/
def posLastNewline (b : List Nat) : Nat → Option Nat
  | 0 => none
  | i + 1 => if b.getD (i + 1) 0 = lfB then some (i + 1) else posLastNewline b i

theorem dropScan_eq_posLastNewline (b : List Nat) :
    ∀ j, dropScan b j =
      (match posLastNewline b j with | some i => b.take i | none => b) := by
  intro j
  induction j with
  | zero => rfl
  | succ i ih =>
    rw [dropScan, posLastNewline]
    split
    · rfl
    · exact ih

/-- C3 amended: for every byte slice and limit, if the limit is nonzero and
the length (taken as uint32) is at least the limit, DropLastLine truncates
just before the last newline found at a positive index (the newline itself
is removed); with no newline at a positive index, or when the length is
below the limit, the input is returned unchanged. -/
theorem dropLastLine_characterization (b : List Nat) (limit : Nat) :
    DropLastLine b limit =
      if limit = 0 || b.length % 2 ^ 32 < limit then b
      else match posLastNewline b (b.length - 1) with
        | some i => b.take i
        | none => b := by
  rw [DropLastLine]
  split
  · rfl
  · exact dropScan_eq_posLastNewline b _

/-- C2 counterexample: with input "a,b\nc,dXXX\n" and limit 7, Detect scans
"a,b\nc,d" (the trailing-line drop happens on the full input, before the
byte limit) and returns true, while the claim's prefix — the first 7 bytes
"a,b\nc,d" with the incomplete trailing line "c,d" dropped, i.e. "a,b" (or
"a,b\n" if the newline is kept) — makes Detect with limit 0 return false. -/
theorem detect_byte_limit_counterexample :
    Detect vecC2Input 44 7 = true ∧ Detect [97, 44, 98] 44 0 = false ∧
      Detect [97, 44, 98, 10] 44 0 = false :=
  ⟨by decide, by decide, by decide⟩

/-- C2 amended: for every input, delimiter and positive limit, Detect equals
the validity verdict of scanning prefix directly with no byte limit and no
line cap, where prefix is the first limit bytes of DropLastLine(input,
limit): the trailing-line drop is computed on the full input before the
byte limit applies, and the positive-limit scan runs with the line cap
lifted (lineLimit -1), unlike a limit-0 Detect call, which caps at 10
lines. -/
theorem detect_byte_limit_refinement (raw : List Nat) (delimiter limit : Nat)
    (h : 0 < limit) :
    Detect raw delimiter limit =
      isValidCSV (resetLine (runScan none ((DropLastLine raw limit).take limit)
        (newDetectState delimiter (-1)))) := by
  simp only [Detect, prepSvReader]
  rw [if_pos h, if_pos h]

/-- C2 amended, witness at limit 7 on the counterexample input. -/
theorem detect_byte_limit_refinement_witness :
    0 < 7 ∧ Detect vecC2Input 44 7 =
      isValidCSV (resetLine (runScan none ((DropLastLine vecC2Input 7).take 7)
        (newDetectState 44 (-1)))) :=
  ⟨by decide, detect_byte_limit_refinement vecC2Input 44 7 (by decide)⟩

/-- C5: escaped (doubled) quotes inside an explicitly quoted field are
consumed atomically — the step returns skip offset 1 and stays inside the
explicit quote — and an explicit quote closes exactly when the quote is not
doubled and the next byte is a field terminator (so a closing quote is
always immediately followed by a delimiter, line ending or end of stream);
concretely, the doubled-quote input is detected and the unbalanced
mid-field-quote input with trailing characters is rejected. -/
theorem detect_quote_escape_handling :
    Detect vecC5True 44 0 = true ∧
    Detect vecC5False 44 0 = false ∧
    (∀ (d : DetectState) (p nn : Option Nat),
      (readStep p quoteB (some quoteB) nn
        { d with complete := false, isWithinExplicitQuote := true,
                 isWithinComment := false }).2 = 1 ∧
      (readStep p quoteB (some quoteB) nn
        { d with complete := false, isWithinExplicitQuote := true,
                 isWithinComment := false }).1.isWithinExplicitQuote = true) ∧
    (∀ (d : DetectState) (p nx nn : Option Nat),
      (readStep p quoteB nx nn
        { d with complete := false, isWithinExplicitQuote := true,
                 isWithinComment := false }).1.isWithinExplicitQuote
        = !(decide (nx ≠ some quoteB) && nextTerm d.delimiter quoteB nx nn)) := by
  refine ⟨by decide, by decide, fun d p nn => ?_, fun d p nx nn => ?_⟩
  · constructor <;>
      simp [readStep, stepCore, mkCtx, processLineChar, handleQuote, isByte]
  · by_cases hq : isByte nx quoteB = true
    · match nx, hq with
      | some x, hq =>
        have hx : x = quoteB := of_decide_eq_true hq
        subst hx
        simp [readStep, stepCore, mkCtx, processLineChar, handleQuote, isByte]
    · have hq' : isByte nx quoteB = false := Bool.eq_false_iff.2 hq
      have hnx : nx ≠ some quoteB := by
        intro hc
        subst hc
        simp [isByte] at hq'
      by_cases ht : nextTerm d.delimiter quoteB nx nn = true
      · simp [readStep, stepCore, mkCtx, processLineChar, handleQuote, quoteTail,
          hq', ht, hnx]
      · have ht' : nextTerm d.delimiter quoteB nx nn = false :=
          Bool.eq_false_iff.2 ht
        simp [readStep, stepCore, mkCtx, processLineChar, handleQuote,
          hq', ht', hnx]

/-- C4: with limit 0 the line cap of 10 applies — at a newline with at least
10 finalized data lines, handleNewline marks the scan complete without
touching the invalid flag (successful bounded completion), and the partial
data can still yield true (eleven consistent lines before inconsistent
trailing data are detected); with a positive limit the internal line limit
is -1, under which completion can only come from invalidity, and the same
input scanned fully is rejected. -/
theorem detect_line_cap :
    (∀ (d : DetectState) (k : Nat),
      handleNewline { d with lineLimit := 10, isWithinExplicitQuote := false,
                             csvLineIdx := 10 + k }
        = markComplete { d with lineLimit := 10, isWithinExplicitQuote := false,
                                csvLineIdx := 10 + k } ∧
      (markComplete { d with lineLimit := 10, isWithinExplicitQuote := false,
                             csvLineIdx := 10 + k }).invalid = d.invalid) ∧
    (∀ d : DetectState,
      (handleNewline { d with lineLimit := -1, complete := false,
                              invalid := false }).complete
        = (handleNewline { d with lineLimit := -1, complete := false,
                                  invalid := false }).invalid) ∧
    Detect vecC4 44 0 = true ∧ Detect vecC4 44 1000 = false := by
  refine ⟨fun d k => ⟨?_, rfl⟩, fun d => ?_, by decide, by decide⟩
  · rw [handleNewline]
    rw [if_neg (by simp)]
    rw [if_pos ?_]
    simp only [Bool.and_eq_true, decide_eq_true_eq]
    constructor
    · decide
    · push_cast
      omega
  · simp only [handleNewline]
    repeat' split
    all_goals simp_all [markInvalid, markComplete, resetLine]

theorem firstPositive_of_all (l : List (Nat × Nat)) (v : Nat) (hv : 0 < v)
    (hne : l ≠ []) (hall : ∀ p ∈ l, p.2 = v) : firstPositive l = v := by
  match l with
  | [] => exact absurd rfl hne
  | p :: rest =>
    have hp := hall p (List.mem_cons_self _ _)
    rw [firstPositive, hp, if_pos hv]

/-- C1: Detect's verdict is exactly isValidCSV of the flushed scan state, and
isValidCSV holds precisely when the invalid flag is clear, all recorded data
lines (comment-only lines never record an entry) share one field count,
that common count exceeds 1, and more than one data line was finalized —
so differing field counts, a single data line, or single-column rows are
rejected. -/
theorem detect_verdict_characterization :
    (∀ (raw : List Nat) (delimiter limit : Nat),
      Detect raw delimiter limit =
        isValidCSV (resetLine (runScan none (prepSvReader raw limit)
          (newDetectState delimiter (if limit > 0 then -1 else (svLineLimit : Int)))))) ∧
    (∀ d : DetectState,
      isValidCSV d = true ↔
        d.invalid = false ∧ 1 < d.csvLineIdx ∧
          ∃ v, 1 < v ∧ d.recordFields ≠ [] ∧ ∀ p ∈ d.recordFields, p.2 = v) := by
  refine ⟨fun _ _ _ => rfl, fun d => ?_⟩
  rw [isValidCSV]
  by_cases hinv : d.invalid = true
  · simp [hinv]
  · simp only [Bool.not_eq_true] at hinv
    rw [if_neg (by simp [hinv])]
    simp only [hinv, true_and, Bool.and_eq_true, Bool.not_eq_true', decide_eq_true_eq]
    constructor
    · rintro ⟨⟨hbad, hfc⟩, hidx⟩
      refine ⟨hidx, firstPositive d.recordFields, hfc, ?_, ?_⟩
      · intro hnil
        rw [hnil] at hfc
        simp [firstPositive] at hfc
      · intro p hp
        by_contra hne
        have : d.recordFields.any (fun p => decide (p.2 ≠ firstPositive d.recordFields))
            = true :=
          List.any_eq_true.2 ⟨p, hp, decide_eq_true hne⟩
        rw [this] at hbad
        exact Bool.true_eq_false.mp hbad
    · rintro ⟨hidx, v, hv, hne, hall⟩
      have hfp : firstPositive d.recordFields = v :=
        firstPositive_of_all _ v (by omega) hne hall
      refine ⟨⟨?_, by rw [hfp]; exact hv⟩, hidx⟩
      rw [Bool.eq_false_iff]
      intro hcontra
      obtain ⟨p, hp, hpv⟩ := List.any_eq_true.1 hcontra
      exact of_decide_eq_true hpv (by rw [hall p hp, hfp])

theorem readStep_csvLineIdx (p nx nn : Option Nat) (c : Nat) (d : DetectState)
    (hc : c ≠ lfB) (hnx : isByte nx lfB = false) :
    (readStep p c nx nn d).1.csvLineIdx = d.csvLineIdx := by
  rw [readStep]
  split
  · rfl
  split
  · rfl
  rw [stepCore]
  split
  · rename_i hnl
    exfalso
    simp [mkCtx, hc, hnx] at hnl
  · simp [processLineChar_csvLineIdx]

theorem runScan_csvLineIdx : ∀ (p : Option Nat) (l : List Nat) (d : DetectState),
    (∀ x ∈ l, x ≠ lfB) → (runScan p l d).csvLineIdx = d.csvLineIdx := by
  intro p l d
  induction p, l, d using runScan.induct with
  | case1 p d => intro _; rfl
  | case2 p c d =>
    intro h
    rw [runScan]
    exact readStep_csvLineIdx _ _ _ _ _ (h c (List.mem_singleton_self c)) rfl
  | case3 p c c2 rest d s hs ih =>
    intro h
    rw [runScan, if_pos hs]
    rw [ih fun x hx => h x (List.mem_cons_of_mem c hx)]
    exact readStep_csvLineIdx _ _ _ _ _ (h c (List.mem_cons_self _ _))
      (by simp [isByte, h c2 (List.mem_cons_of_mem c (List.mem_cons_self _ _))])
  | case4 p c c2 rest d s hs ih =>
    intro h
    rw [runScan, if_neg hs]
    rw [ih fun x hx => h x (List.mem_cons_of_mem c (List.mem_cons_of_mem c2 hx))]
    exact readStep_csvLineIdx _ _ _ _ _ (h c (List.mem_cons_self _ _))
      (by simp [isByte, h c2 (List.mem_cons_of_mem c (List.mem_cons_self _ _))])

theorem mem_dropScan (b : List Nat) : ∀ (j : Nat) (x : Nat), x ∈ dropScan b j → x ∈ b := by
  intro j
  induction j with
  | zero => intro x hx; exact hx
  | succ i ih =>
    intro x hx
    rw [dropScan] at hx
    split at hx
    · exact List.take_subset _ _ hx
    · exact ih x hx

theorem mem_dropLastLine (b : List Nat) (limit : Nat) (x : Nat)
    (hx : x ∈ DropLastLine b limit) : x ∈ b := by
  rw [DropLastLine] at hx
  split at hx
  · exact hx
  · exact mem_dropScan b _ x hx

theorem mem_prepSvReader (raw : List Nat) (limit : Nat) (x : Nat)
    (hx : x ∈ prepSvReader raw limit) : x ∈ raw := by
  rw [prepSvReader] at hx
  split at hx
  · exact mem_dropLastLine raw limit x (List.take_subset _ _ hx)
  · exact mem_dropLastLine raw limit x hx

theorem isValidCSV_false_of_idx_le_one (d : DetectState) (h : d.csvLineIdx ≤ 1) :
    isValidCSV d = false := by
  rw [isValidCSV]
  split
  · rfl
  · simp only [Bool.and_eq_false_iff]
    right
    simp only [decide_eq_false_iff_not]
    omega

/-- C9: for every delimiter and limit, an input containing no line-feed byte
(hence a single, possibly incomplete line) is never detected: the scan
finalizes at most one data line, and the verdict requires more than one. -/
theorem detect_single_line_false (raw : List Nat) (delimiter limit : Nat)
    (h : lfB ∉ raw) : Detect raw delimiter limit = false := by
  simp only [Detect]
  apply isValidCSV_false_of_idx_le_one
  have key : ∀ L : Int,
      (resetLine (runScan none (prepSvReader raw limit)
        (newDetectState delimiter L))).csvLineIdx ≤ 1 := by
    intro L
    have hidx : (runScan none (prepSvReader raw limit)
        (newDetectState delimiter L)).csvLineIdx = 0 := by
      rw [runScan_csvLineIdx]
      · rfl
      · intro x hx heq
        exact h (heq ▸ mem_prepSvReader raw limit x hx)
    simp only [resetLine, hidx]
    split <;> omega
  exact key _

/-- C9 witness at "a,b" with comma and limit 0. -/
theorem detect_single_line_false_witness :
    lfB ∉ [97, 44, 98] ∧ Detect [97, 44, 98] 44 0 = false :=
  ⟨by decide, detect_single_line_false [97, 44, 98] 44 0 (by decide)⟩

/-- Reachability invariant of the scan state: inside an explicit quote the
current line always has a record entry, and a non-comment line with at
least one byte always has a record entry (every byte either records data,
opens a comment, or is swallowed by an explicit quote that already
recorded). -/
def ScanInv (d : DetectState) : Prop :=
  (d.isWithinExplicitQuote = true → lineHasData d = true) ∧
  (d.isWithinComment = false → 0 < d.lineSize → lineHasData d = true)

theorem scanInv_handleNewline (d : DetectState) (h : ScanInv d) :
    ScanInv (handleNewline d) := by
  rw [handleNewline]
  split
  · exact h
  split
  · exact h
  split
  · exact h
  · rename_i hexp _ _
    constructor
    · intro he
      exact absurd he hexp
    · intro _ hl
      simp [resetLine] at hl

theorem handleDataCharacter_cases (ctx : StepCtx) (e : DetectState) :
    lineHasData (handleDataCharacter ctx e) = true ∨
    ((handleDataCharacter ctx e).isWithinComment = true ∧
      (handleDataCharacter ctx e).isWithinExplicitQuote = false) ∨
    (e.isWithinExplicitQuote = true ∧ handleDataCharacter ctx e = e) := by
  rw [handleDataCharacter]
  split
  · rename_i hcc
    simp only [Bool.and_eq_true, Bool.not_eq_true', decide_eq_true_eq] at hcc
    right; left
    exact ⟨rfl, hcc.1.2⟩
  split
  · split
    · exact Or.inl (newField_lineHasData ctx e)
    · rename_i hexp
      simp only [Bool.not_eq_true', Bool.not_eq_false] at hexp
      right; right
      exact ⟨hexp, rfl⟩
  · left
    dsimp only
    repeat' split
    all_goals exact startDataLine_lineHasData e

theorem scanInv_processLineChar (ctx : StepCtx) (d : DetectState) (h : ScanInv d) :
    ScanInv (processLineChar ctx { d with lineSize := d.lineSize + 1 }).1 := by
  rw [processLineChar]
  split
  · by_cases hcom : d.isWithinComment = true
    · rw [handleQuote, if_pos hcom]
      constructor
      · intro he
        exact h.1 he
      · intro hc
        exact absurd (show d.isWithinComment = false from hc) (by simp [hcom])
    · have hcom' : d.isWithinComment = false := Bool.eq_false_iff.2 hcom
      have hd : lineHasData (handleQuote ctx { d with lineSize := d.lineSize + 1 }).1
          = true := handleQuote_lineHasData ctx _ hcom'
      exact ⟨fun _ => hd, fun _ _ => hd⟩
  · split
    · rcases handleDataCharacter_cases ctx { d with lineSize := d.lineSize + 1 } with
        hd | ⟨hcm, hxp⟩ | ⟨hexp, heq⟩
      · exact ⟨fun _ => hd, fun _ _ => hd⟩
      · constructor
        · intro he
          rw [he] at hxp
          exact absurd hxp (by simp)
        · intro hc
          rw [hc] at hcm
          exact absurd hcm (by simp)
      · rw [heq]
        have hd : lineHasData d = true := h.1 hexp
        exact ⟨fun _ => hd, fun _ _ => hd⟩
    · rename_i hcom2
      constructor
      · intro he
        exact h.1 he
      · intro hc _
        simp only [Bool.not_eq_true', Bool.not_eq_false] at hcom2
        exact absurd (show d.isWithinComment = false from hc) (by simp [hcom2])

theorem scanInv_readStep (p : Option Nat) (c : Nat) (nx nn : Option Nat)
    (d : DetectState) (h : ScanInv d) : ScanInv (readStep p c nx nn d).1 := by
  rw [readStep]
  split
  · exact h
  split
  · exact h
  rw [stepCore]
  split
  · exact scanInv_handleNewline d h
  · exact scanInv_processLineChar _ d h

theorem scanInv_runScan : ∀ (p : Option Nat) (l : List Nat) (d : DetectState),
    ScanInv d → ScanInv (runScan p l d) := by
  intro p l d
  induction p, l, d using runScan.induct with
  | case1 p d => intro h; exact h
  | case2 p c d =>
    intro h
    rw [runScan]
    exact scanInv_readStep _ _ _ _ _ h
  | case3 p c c2 rest d s hs ih =>
    intro h
    rw [runScan, if_pos hs]
    exact ih (scanInv_readStep _ _ _ _ _ h)
  | case4 p c c2 rest d s hs ih =>
    intro h
    rw [runScan, if_neg hs]
    exact ih (scanInv_readStep _ _ _ _ _ h)

theorem resetLine_resetLine (d : DetectState) :
    resetLine (resetLine d) = resetLine d := rfl

theorem isValidCSV_resetLine_handleNewline (d : DetectState) (h : ScanInv d) :
    isValidCSV (resetLine (handleNewline d)) = isValidCSV (resetLine d) := by
  rw [handleNewline]
  split
  · rfl
  split
  · simp [isValidCSV, resetLine, markComplete]
  split
  · rename_i hcond
    exfalso
    simp only [Bool.and_eq_true, Bool.not_eq_true', decide_eq_true_eq] at hcond
    obtain ⟨⟨hcom, hls⟩, hhd⟩ := hcond
    rw [h.2 hcom hls] at hhd
    exact absurd hhd (by simp)
  · rw [resetLine_resetLine]

theorem scan_append_lf : ∀ (p : Option Nat) (l : List Nat) (d : DetectState),
    d.delimiter ≠ lfB →
    (∀ x ∈ l.getLast?, x ≠ lfB ∧ x ≠ crB) →
    (l = [] → isByte p crB = false) →
    runScan p (l ++ [lfB]) d =
      if (runScan p l d).complete = true then runScan p l d
      else handleNewline (runScan p l d) := by
  intro p l d
  induction p, l, d using runScan.induct with
  | case1 p d =>
    intro hdelim hlast hp
    simp only [List.nil_append, runScan]
    by_cases hc : d.complete = true
    · rw [readStep_complete_state _ _ _ _ _ hc, if_pos hc]
    · have hc' : d.complete = false := Bool.eq_false_iff.2 hc
      rw [readStep_linux _ _ _ _ hc' (hp rfl), if_neg hc]
  | case2 p c d =>
    intro hdelim hlast hp
    have hcb : c ≠ lfB ∧ c ≠ crB := hlast c (by simp)
    have hstep : readStep p c (some lfB) none d = readStep p c none none d := by
      apply readStep_congr
      · simp [mkCtx, nextTerm, isByte, hcb.1, hcb.2, Ne.symm hdelim]
      · simp [hcb.2]
    have hsnd : (readStep p c none none d).2 = 0 :=
      readStep_snd_zero p none none c d (by simp [isByte]) (by simp [isByte])
    show runScan p [c, lfB] d = _
    conv_lhs => rw [runScan]
    simp only [List.head?_nil, hstep, hsnd, if_pos]
    conv_lhs => rw [runScan]
    by_cases hc1 : (readStep p c none none d).1.complete = true
    · rw [readStep_complete_state _ _ _ _ _ hc1]
      rw [show runScan p [c] d = (readStep p c none none d).1 from by rw [runScan]]
      rw [if_pos hc1]
    · have hc1' : (readStep p c none none d).1.complete = false := Bool.eq_false_iff.2 hc1
      rw [readStep_linux _ _ _ _ hc1' (by simp [isByte, hcb.2])]
      rw [show runScan p [c] d = (readStep p c none none d).1 from by rw [runScan]]
      rw [if_neg hc1]
  | case3 p c c2 rest d s hs ih =>
    intro hdelim hlast hp
    have hstepeq : readStep p c (some c2) ((rest ++ [lfB]).head?) d
        = readStep p c (some c2) rest.head? d := by
      cases rest with
      | nil =>
        have hc2 : c2 ≠ lfB ∧ c2 ≠ crB := hlast c2 (by simp [List.getLast?_cons_cons])
        apply readStep_congr
        · simp [mkCtx, nextTerm, isByte, hc2.2]
        · rfl
      | cons r rest' => rfl
    have hdelim' : (readStep p c (some c2) rest.head? d).1.delimiter ≠ lfB := by
      rw [readStep_delimiter]
      exact hdelim
    have hlast' : ∀ x ∈ (c2 :: rest).getLast?, x ≠ lfB ∧ x ≠ crB := by
      intro x hx
      exact hlast x (by rw [List.getLast?_cons_cons]; exact hx)
    have hs' : (readStep p c (some c2) rest.head? d).2 = 0 := hs
    have ih' : runScan (some c) (c2 :: (rest ++ [lfB]))
          (readStep p c (some c2) rest.head? d).1 =
        if (runScan (some c) (c2 :: rest)
            (readStep p c (some c2) rest.head? d).1).complete = true then
          runScan (some c) (c2 :: rest) (readStep p c (some c2) rest.head? d).1
        else handleNewline (runScan (some c) (c2 :: rest)
          (readStep p c (some c2) rest.head? d).1) :=
      ih hdelim' hlast' (fun hcontra => by cases hcontra)
    have hrhs : runScan p (c :: c2 :: rest) d
        = runScan (some c) (c2 :: rest) (readStep p c (some c2) rest.head? d).1 := by
      rw [runScan]
      simp only [hs', if_pos]
    simp only [List.cons_append]
    conv_lhs => rw [runScan]
    simp only [hstepeq, hs', if_pos]
    rw [ih', hrhs]
  | case4 p c c2 rest d s hs ih =>
    intro hdelim hlast hp
    have hstepeq : readStep p c (some c2) ((rest ++ [lfB]).head?) d
        = readStep p c (some c2) rest.head? d := by
      cases rest with
      | nil =>
        have hc2 : c2 ≠ lfB ∧ c2 ≠ crB := hlast c2 (by simp [List.getLast?_cons_cons])
        apply readStep_congr
        · simp [mkCtx, nextTerm, isByte, hc2.2]
        · rfl
      | cons r rest' => rfl
    have hdelim' : (readStep p c (some c2) rest.head? d).1.delimiter ≠ lfB := by
      rw [readStep_delimiter]
      exact hdelim
    have hlast' : ∀ x ∈ rest.getLast?, x ≠ lfB ∧ x ≠ crB := by
      intro x hx
      cases rest with
      | nil => cases hx
      | cons r rest' =>
        exact hlast x (by rw [List.getLast?_cons_cons, List.getLast?_cons_cons]; exact hx)
    have hprev : rest = [] → isByte (some c2) crB = false := by
      intro hrest
      subst hrest
      have hc2 : c2 ≠ lfB ∧ c2 ≠ crB := hlast c2 (by simp [List.getLast?_cons_cons])
      simp [isByte, hc2.2]
    have hs' : ¬(readStep p c (some c2) rest.head? d).2 = 0 := hs
    have ih' : runScan (some c2) (rest ++ [lfB])
          (readStep p c (some c2) rest.head? d).1 =
        if (runScan (some c2) rest
            (readStep p c (some c2) rest.head? d).1).complete = true then
          runScan (some c2) rest (readStep p c (some c2) rest.head? d).1
        else handleNewline (runScan (some c2) rest
          (readStep p c (some c2) rest.head? d).1) :=
      ih hdelim' hlast' hprev
    have hrhs : runScan p (c :: c2 :: rest) d
        = runScan (some c2) rest (readStep p c (some c2) rest.head? d).1 := by
      rw [runScan, if_neg hs']
    simp only [List.cons_append]
    conv_lhs => rw [runScan]
    simp only [hstepeq, if_neg hs']
    rw [ih', hrhs]

theorem handleNewline_recordFields (d : DetectState) :
    (handleNewline d).recordFields = d.recordFields := by
  simp only [handleNewline]
  repeat' split
  all_goals simp [markComplete, markInvalid, resetLine]

theorem rfSet_entries_zero (m : List (Nat × Nat)) (k : Nat)
    (hz : ∀ q ∈ m, q.2 = 0) : ∀ q ∈ rfSet m k 0, q.2 = 0 := by
  intro q hq
  rw [rfSet] at hq
  split at hq
  · obtain ⟨r, hr, hrq⟩ := List.mem_map.1 hq
    by_cases hrk : r.1 = k
    · rw [if_pos hrk] at hrq
      rw [← hrq]
    · rw [if_neg hrk] at hrq
      rw [← hrq]
      exact hz r hr
  · rcases List.mem_cons.1 hq with hq1 | hq2
    · rw [hq1]
    · exact hz q hq2

theorem startDataLine_entries_zero (e : DetectState)
    (hz : ∀ q ∈ e.recordFields, q.2 = 0) :
    ∀ q ∈ (startDataLine e).1.recordFields, q.2 = 0 := by
  rw [startDataLine]
  split
  · exact rfSet_entries_zero _ _ hz
  · exact hz

theorem handleQuote_entries_zero (ctx : StepCtx) (e : DetectState)
    (hz : ∀ q ∈ e.recordFields, q.2 = 0) :
    ∀ q ∈ (handleQuote ctx e).1.recordFields, q.2 = 0 := by
  have hs := startDataLine_entries_zero e hz
  simp only [handleQuote]
  repeat' split
  all_goals simp only [quoteTail_recordFields]
  all_goals first | exact hz | exact hs

theorem handleDataCharacter_entries_zero (ctx : StepCtx) (e : DetectState)
    (hne : ctx.cur ≠ e.delimiter)
    (hz : ∀ q ∈ e.recordFields, q.2 = 0) :
    ∀ q ∈ (handleDataCharacter ctx e).recordFields, q.2 = 0 := by
  rw [handleDataCharacter, if_neg hne]
  split
  · exact hz
  · dsimp only
    repeat' split
    all_goals exact startDataLine_entries_zero e hz

theorem readStep_entries_zero (p : Option Nat) (c : Nat) (nx nn : Option Nat)
    (d : DetectState) (hdel : d.delimiter = lfB)
    (hpc : ¬(isByte p crB = true ∧ c = lfB))
    (hz : ∀ q ∈ d.recordFields, q.2 = 0) :
    ∀ q ∈ (readStep p c nx nn d).1.recordFields, q.2 = 0 := by
  rw [readStep]
  split
  · exact hz
  split
  · exact hz
  rw [stepCore]
  split
  · intro q hq
    rw [handleNewline_recordFields] at hq
    exact hz q hq
  · rename_i hnl
    have hclf : c ≠ lfB := by
      intro hceq
      subst hceq
      apply hpc
      refine ⟨?_, rfl⟩
      by_contra hx
      have hx' : isByte p crB = false := Bool.eq_false_iff.2 hx
      exact hnl (by simp [mkCtx, hx'])
    rw [processLineChar]
    split
    · exact handleQuote_entries_zero _ _ hz
    split
    · apply handleDataCharacter_entries_zero
      · show c ≠ ({ d with lineSize := d.lineSize + 1 } : DetectState).delimiter
        rw [show ({ d with lineSize := d.lineSize + 1 } : DetectState).delimiter
          = d.delimiter from rfl, hdel]
        exact hclf
      · exact hz
    · exact hz

theorem runScan_entries_zero : ∀ (p : Option Nat) (l : List Nat) (d : DetectState),
    d.delimiter = lfB →
    (¬(isByte p crB = true ∧ l.head? = some lfB)) →
    (∀ q ∈ d.recordFields, q.2 = 0) →
    ∀ q ∈ (runScan p l d).recordFields, q.2 = 0 := by
  intro p l d
  induction p, l, d using runScan.induct with
  | case1 p d => intro _ _ hz; exact hz
  | case2 p c d =>
    intro hdel hpc hz
    rw [runScan]
    exact readStep_entries_zero p c none none d hdel
      (fun hx => hpc ⟨hx.1, by rw [hx.2]; rfl⟩) hz
  | case3 p c c2 rest d s hs ih =>
    intro hdel hpc hz
    by_cases hcomp : d.complete = true
    · rw [runScan_complete _ _ _ hcomp]
      exact hz
    have hcomp' : d.complete = false := Bool.eq_false_iff.2 hcomp
    have hs' : (readStep p c (some c2) rest.head? d).2 = 0 := hs
    have hstep := readStep_entries_zero p c (some c2) rest.head? d hdel
      (fun hx => hpc ⟨hx.1, by rw [hx.2]; rfl⟩) hz
    rw [runScan, if_pos hs']
    apply ih
    · rw [readStep_delimiter]
      exact hdel
    · rintro ⟨hccr, hc2⟩
      have hceq : c = crB := by simpa [isByte] using hccr
      have hc2eq : c2 = lfB := by simpa using hc2
      subst hceq
      subst hc2eq
      rw [readStep_windows _ _ _ hcomp'] at hs'
      simp at hs'
    · exact hstep
  | case4 p c c2 rest d s hs ih =>
    intro hdel hpc hz
    by_cases hcomp : d.complete = true
    · rw [runScan_complete _ _ _ hcomp]
      exact hz
    have hs' : ¬(readStep p c (some c2) rest.head? d).2 = 0 := hs
    have hstep := readStep_entries_zero p c (some c2) rest.head? d hdel
      (fun hx => hpc ⟨hx.1, by rw [hx.2]; rfl⟩) hz
    rw [runScan, if_neg hs']
    apply ih
    · rw [readStep_delimiter]
      exact hdel
    · rintro ⟨hccr, _⟩
      have hc2eq : c2 = crB := by simpa [isByte] using hccr
      rcases readStep_snd_ne_zero _ _ _ _ _ hs' with hlf | hqt
      · have h1 : c2 = lfB := by simpa [isByte] using hlf
        rw [hc2eq] at h1
        exact absurd h1 (by decide)
      · have h1 : c2 = quoteB := by simpa [isByte] using hqt
        rw [hc2eq] at h1
        exact absurd h1 (by decide)
    · exact hstep

theorem firstPositive_zero (m : List (Nat × Nat)) (hz : ∀ q ∈ m, q.2 = 0) :
    firstPositive m = 0 := by
  induction m with
  | nil => rfl
  | cons q rest ihm =>
    rw [firstPositive, hz q (List.mem_cons_self _ _), if_neg (Nat.lt_irrefl 0)]
    exact ihm (fun r hr => hz r (List.mem_cons_of_mem q hr))

theorem isValidCSV_false_of_fc_zero (d : DetectState)
    (h : firstPositive d.recordFields = 0) : isValidCSV d = false := by
  rw [isValidCSV]
  split
  · rfl
  · simp [h]

/-- With delimiter LF, Detect is constantly false: a line feed is always
classified as (part of) a newline before the field-counting path, so no
field is ever counted and every record entry stays zero. -/
theorem detect_false_of_delim_lf (raw : List Nat) (limit : Nat) :
    Detect raw lfB limit = false := by
  simp only [Detect]
  have key : ∀ L : Int,
      isValidCSV (resetLine (runScan none (prepSvReader raw limit)
        (newDetectState lfB L))) = false := by
    intro L
    apply isValidCSV_false_of_fc_zero
    apply firstPositive_zero
    intro q hq
    refine runScan_entries_zero none (prepSvReader raw limit) (newDetectState lfB L)
      rfl (by simp [isByte]) (by intro r hr; cases hr) q ?_
    simpa [resetLine] using hq
  exact key _

/-- C8 counterexample: for the input "a\rb\nc\rb\r" — which does not end in a
newline — with delimiter CR and limit 0, Detect returns false, but with a
final line-feed appended it returns true: the flush (a bare resetLine) does
not re-run newline classification, so the trailing CR is data when
unterminated but becomes a CRLF newline when the LF is appended. -/
theorem detect_flush_counterexample :
    vecC8.getLast? = some crB ∧ Detect vecC8 13 0 = false ∧
      Detect (vecC8 ++ [lfB]) 13 0 = true :=
  ⟨by decide, by decide, by decide⟩

/-- C8 amended: for limit 0, every delimiter, and every input whose last byte
is neither a line feed nor a carriage return, appending a final line feed
does not change Detect: the end-of-scan flush evaluates the unterminated
last line exactly like a terminated one (with delimiter LF both sides are
constantly false). -/
theorem detect_flush_equivalence (raw : List Nat) (delimiter : Nat)
    (hlast : ∀ x ∈ raw.getLast?, x ≠ lfB ∧ x ≠ crB) :
    Detect (raw ++ [lfB]) delimiter 0 = Detect raw delimiter 0 := by
  by_cases hdelim : delimiter = lfB
  · subst hdelim
    rw [detect_false_of_delim_lf, detect_false_of_delim_lf]
  have hprep : ∀ l : List Nat, prepSvReader l 0 = l := by
    intro l
    simp [prepSvReader, DropLastLine]
  simp only [Detect, hprep]
  rw [scan_append_lf none raw (newDetectState delimiter (if (0 : Nat) > 0 then -1
      else (svLineLimit : Int))) hdelim hlast (fun _ => rfl)]
  by_cases hc : (runScan none raw (newDetectState delimiter (if (0 : Nat) > 0 then -1
      else (svLineLimit : Int)))).complete = true
  · rw [if_pos hc]
  · rw [if_neg hc]
    apply isValidCSV_resetLine_handleNewline
    apply scanInv_runScan
    exact ⟨fun he => absurd he (by simp [newDetectState]),
      fun _ hl => absurd hl (by simp [newDetectState])⟩

/-- C8 amended, witness on "a,b\nc,d" with comma. -/
theorem detect_flush_equivalence_witness :
    (∀ x ∈ vecTwoRows.getLast?, x ≠ lfB ∧ x ≠ crB) ∧
      Detect (vecTwoRows ++ [lfB]) 44 0 = Detect vecTwoRows 44 0 :=
  ⟨by decide, detect_flush_equivalence vecTwoRows 44 (by decide)⟩

/-- Replace every bare line feed (one not preceded by a carriage return) by a
carriage-return/line-feed pair; the recursion carries the previous byte to
decide bareness. -/
def expandFrom : Option Nat → List Nat → List Nat
  | _, [] => []
  | prev, c :: rest =>
    if c = lfB && !isByte prev crB then crB :: lfB :: expandFrom (some lfB) rest
    else c :: expandFrom (some c) rest

def expandCRLF (l : List Nat) : List Nat := expandFrom none l

/-- The nextIsDelimiter flag is not consulted by quoteTail. -/
theorem quoteTail_nid (ctx : StepCtx) (b : Bool) (d : DetectState) :
    quoteTail { ctx with nextIsDelimiter := b } d = quoteTail ctx d := rfl

/-- handleQuote consults nextIsDelimiter only in the inferred-quote branch:
outside it (in a comment, in an explicit quote, or with no inferred quote
open) the flag is irrelevant. -/
theorem handleQuote_nid (ctx : StepCtx) (b : Bool) (d : DetectState)
    (h : d.isWithinComment = true ∨ d.isWithinExplicitQuote = true
       ∨ d.isWithinInferredQuote = false ∨ ctx.nextIsDelimiter = b) :
    handleQuote { ctx with nextIsDelimiter := b } d = handleQuote ctx d := by
  by_cases hcom : d.isWithinComment = true
  · simp [handleQuote, hcom]
  have hcom2 : d.isWithinComment = false := Bool.eq_false_iff.2 hcom
  by_cases hexq : d.isWithinExplicitQuote = true
  · simp [handleQuote, hcom2, hexq, quoteTail]
  have hexq2 : d.isWithinExplicitQuote = false := Bool.eq_false_iff.2 hexq
  by_cases hinf : d.isWithinInferredQuote = true
  · have hb : ctx.nextIsDelimiter = b := by
      rcases h with h | h | h | h
      · exact absurd h hcom
      · exact absurd h hexq
      · rw [hinf] at h
        exact absurd h (by simp)
      · exact h
    simp [handleQuote, hcom2, hexq2, hinf, quoteTail, ← hb]
  · have hinf2 : d.isWithinInferredQuote = false := Bool.eq_false_iff.2 hinf
    simp [handleQuote, hcom2, hexq2, hinf2, quoteTail]

/-- A run step ignores nextIsDelimiter except when a quote byte is met with
an inferred quote open. -/
theorem stepCore_nid (ctx : StepCtx) (b : Bool) (d : DetectState)
    (h : ctx.cur ≠ quoteB ∨ d.isWithinComment = true ∨ d.isWithinExplicitQuote = true
       ∨ d.isWithinInferredQuote = false ∨ ctx.nextIsDelimiter = b) :
    stepCore { ctx with nextIsDelimiter := b } d = stepCore ctx d := by
  rw [stepCore, stepCore]
  by_cases hnl : ctx.isNewline = true
  · rw [if_pos (show ({ ctx with nextIsDelimiter := b } : StepCtx).isNewline = true from hnl),
      if_pos hnl]
  · rw [if_neg (show ¬({ ctx with nextIsDelimiter := b } : StepCtx).isNewline = true from hnl),
      if_neg hnl]
    rw [processLineChar, processLineChar]
    by_cases hq : ctx.cur = quoteB
    · rw [if_pos (show ({ ctx with nextIsDelimiter := b } : StepCtx).cur = quoteB from hq),
        if_pos hq]
      refine handleQuote_nid ctx b _ ?_
      rcases h with h | h | h | h | h
      · exact absurd hq h
      · exact Or.inl h
      · exact Or.inr (Or.inl h)
      · exact Or.inr (Or.inr (Or.inl h))
      · exact Or.inr (Or.inr (Or.inr h))
    · rw [if_neg (show ¬({ ctx with nextIsDelimiter := b } : StepCtx).cur = quoteB from hq),
        if_neg hq]
      rfl

/-- Replacing an original look-ahead "bare LF" (next = LF) by the expanded
"CR LF" (next = CR, next-next = LF) changes the step context only in the
nextIsDelimiter flag. -/
theorem mkCtx_crlf (delim : Nat) (p : Option Nat) (c : Nat) (nn : Option Nat)
    (hc10 : c ≠ lfB) (hc13 : c ≠ crB) :
    mkCtx delim p c (some crB) (some lfB)
      = { mkCtx delim p c (some lfB) nn with nextIsDelimiter := isByte (some crB) delim } := by
  simp [mkCtx, nextTerm, isByte, hc10, hc13]

/-- Outside the inferred-quote-closing situation, a read step sees a bare LF
ahead and an expanded CR LF ahead identically. -/
theorem readStep_crlf_nid (p : Option Nat) (c : Nat) (nn : Option Nat) (d : DetectState)
    (hc10 : c ≠ lfB) (hc13 : c ≠ crB)
    (h : c ≠ quoteB ∨ d.isWithinComment = true ∨ d.isWithinExplicitQuote = true
       ∨ d.isWithinInferredQuote = false
       ∨ isByte (some lfB) d.delimiter = isByte (some crB) d.delimiter) :
    readStep p c (some crB) (some lfB) d = readStep p c (some lfB) nn d := by
  by_cases hcomp : d.complete = true
  · rw [readStep_complete_state _ _ _ _ _ hcomp, readStep_complete_state _ _ _ _ _ hcomp]
  · rw [readStep, readStep]
    rw [if_neg hcomp, if_neg hcomp]
    rw [if_neg (by simp [hc13]), if_neg (by simp [hc13])]
    rw [mkCtx_crlf d.delimiter p c nn hc10 hc13]
    refine stepCore_nid _ _ _ ?_
    rcases h with h | h | h | h | h
    · exact Or.inl h
    · exact Or.inr (Or.inl h)
    · exact Or.inr (Or.inr (Or.inl h))
    · exact Or.inr (Or.inr (Or.inr (Or.inl h)))
    · exact Or.inr (Or.inr (Or.inr (Or.inr h)))

/-- The quote step with an inferred quote open: the quote closes (adding two
counted quotes) exactly when the next byte is the delimiter, and the step
consumes nothing extra (requires the next byte to be a field terminator). -/
theorem readStep_quote_inferred (p nx nn : Option Nat) (d : DetectState)
    (hcomp : d.complete = false)
    (hcom : d.isWithinComment = false) (hexq : d.isWithinExplicitQuote = false)
    (hinf : d.isWithinInferredQuote = true)
    (hterm : nextTerm d.delimiter quoteB nx nn = true) :
    readStep p quoteB nx nn d
      = (if isByte nx d.delimiter then
          { (startDataLine { d with lineSize := d.lineSize + 1 }).1 with
              isWithinInferredQuote := false,
              quoteCount := (startDataLine { d with lineSize := d.lineSize + 1 }).1.quoteCount + 2 }
         else (startDataLine { d with lineSize := d.lineSize + 1 }).1, 0) := by
  rw [readStep, if_neg (by simp [hcomp]), if_neg (by simp)]
  rw [stepCore, if_neg (by simp [mkCtx, isByte])]
  rw [processLineChar, if_pos (show (mkCtx d.delimiter p quoteB nx nn).cur = quoteB from rfl)]
  rw [handleQuote, if_neg (by simp [hcom])]
  dsimp only
  rw [if_neg (by simp [hexq]), if_pos (by simp [hinf])]
  by_cases hd : isByte nx d.delimiter = true
  · rw [if_pos (show (mkCtx d.delimiter p quoteB nx nn).nextIsDelimiter = true from hd),
      if_pos hd]
    rw [quoteTail, if_neg (by simp [hexq]),
      if_pos (show (mkCtx d.delimiter p quoteB nx nn).nextIsFieldTerminator = true from hterm)]
  · rw [if_neg (show ¬(mkCtx d.delimiter p quoteB nx nn).nextIsDelimiter = true from hd),
      if_neg hd]
    rw [quoteTail, if_pos (by simp [hinf])]

/-- A state differing only in the inferred-quote flag and the quote count is
washed out by the newline handler: either the results agree outright, or the
line cap completed the scan on both and the results agree after the final
line flush (which resets exactly those two fields). -/
theorem handleNewline_iq (a : DetectState) (x : Bool) (y : Nat)
    (hexq : a.isWithinExplicitQuote = false)
    (hdata : lineHasData a = true) :
    handleNewline { a with isWithinInferredQuote := x, quoteCount := y } = handleNewline a
    ∨ ((handleNewline { a with isWithinInferredQuote := x, quoteCount := y }).complete = true
       ∧ (handleNewline a).complete = true
       ∧ resetLine (handleNewline { a with isWithinInferredQuote := x, quoteCount := y })
         = resetLine (handleNewline a)) := by
  have hdata2 : lineHasData { a with isWithinInferredQuote := x, quoteCount := y } = true := hdata
  rw [handleNewline, handleNewline]
  dsimp only
  rw [if_neg (show ¬(a.isWithinExplicitQuote = true) from by simp [hexq])]
  rw [if_neg (show ¬(a.isWithinExplicitQuote = true) from by simp [hexq])]
  split
  · exact Or.inr ⟨rfl, rfl, rfl⟩
  · rw [if_neg (show ¬((!a.isWithinComment && decide (a.lineSize > 0)
        && !lineHasData { a with isWithinInferredQuote := x, quoteCount := y }) = true) from by
      simp [hdata2])]
    rw [if_neg (show ¬((!a.isWithinComment && decide (a.lineSize > 0)
        && !lineHasData a) = true) from by simp [hdata])]
    exact Or.inl rfl

/-- Scanning a bare LF: one newline step. -/
theorem runScan_cons_lf (p : Option Nat) (rest : List Nat) (d : DetectState)
    (hcomp : d.complete = false) (hp : isByte p crB = false) :
    runScan p (lfB :: rest) d = runScan (some lfB) rest (handleNewline d) := by
  cases rest with
  | nil =>
    rw [show runScan p [lfB] d = (readStep p lfB none none d).1 from rfl]
    rw [readStep_linux _ _ _ _ hcomp hp]
    rfl
  | cons r rest2 =>
    conv_lhs => rw [runScan]
    rw [readStep_linux _ _ _ _ hcomp hp]
    dsimp only
    rw [if_pos (rfl : (0 : Nat) = 0)]

/-- Scanning a CR LF pair: one newline step that also skips the paired LF,
which becomes the look-behind byte. -/
theorem runScan_cons_crlf (p : Option Nat) (rest : List Nat) (d : DetectState)
    (hcomp : d.complete = false) :
    runScan p (crB :: lfB :: rest) d = runScan (some lfB) rest (handleNewline d) := by
  conv_lhs => rw [runScan]
  rw [readStep_windows _ _ _ hcomp]
  dsimp only
  rw [if_neg (by decide : ¬(1 : Nat) = 0)]

/-- Core of the CRLF-expansion equivalence, for every delimiter: the scan of
the expanded input either equals the scan of the original outright, or (when
the look-ahead delimiter test diverges on an inserted CR while closing an
inferred quote and the line cap then fires) both scans are complete and agree
after the final line flush. -/
theorem scan_expandFrom_gen : ∀ (n : Nat) (l : List Nat) (p : Option Nat) (d : DetectState),
    l.length ≤ n →
    (isByte p crB = true → l.head? ≠ some lfB) →
    runScan p (expandFrom p l) d = runScan p l d
    ∨ ((runScan p (expandFrom p l) d).complete = true
       ∧ (runScan p l d).complete = true
       ∧ resetLine (runScan p (expandFrom p l) d) = resetLine (runScan p l d)) := by
  intro n
  induction n with
  | zero =>
    intro l p d hlen _
    have hnil : l = [] := List.length_eq_zero.1 (Nat.le_zero.1 hlen)
    subst hnil
    exact Or.inl rfl
  | succ n ih =>
    intro l p d hlen hp
    cases l with
    | nil => exact Or.inl rfl
    | cons c rest =>
      by_cases hcomp : d.complete = true
      · rw [runScan_complete _ _ _ hcomp, runScan_complete _ _ _ hcomp]
        exact Or.inl rfl
      have hcomp2 : d.complete = false := Bool.eq_false_iff.2 hcomp
      have hlen1 : rest.length ≤ n := by
        simp only [List.length_cons] at hlen
        omega
      by_cases hbare : c = lfB ∧ isByte p crB = false
      · obtain ⟨hceq, hpcr⟩ := hbare
        subst hceq
        rw [show expandFrom p (lfB :: rest) = crB :: lfB :: expandFrom (some lfB) rest from by
          rw [expandFrom, if_pos (by simp [hpcr])]]
        rw [runScan_cons_crlf p (expandFrom (some lfB) rest) d hcomp2]
        rw [runScan_cons_lf p rest d hcomp2 hpcr]
        exact ih rest (some lfB) (handleNewline d) hlen1
          (fun habs => absurd habs (by simp [isByte]))
      · by_cases hc10 : c = lfB
        · subst hc10
          have hpcr : isByte p crB = true := by
            by_contra hx
            exact hbare ⟨rfl, Bool.eq_false_iff.2 hx⟩
          exact absurd (by simp : (lfB :: rest).head? = some lfB) (hp hpcr)
        · rw [show expandFrom p (c :: rest) = c :: expandFrom (some c) rest from by
            rw [expandFrom, if_neg (by simp [hc10])]]
          cases rest with
          | nil => exact Or.inl rfl
          | cons r rest2 =>
            have hlen2 : rest2.length ≤ n := by
              have hc := hlen1
              simp only [List.length_cons] at hc
              omega
            by_cases hrb : r = lfB ∧ c ≠ crB
            · obtain ⟨hreq, hccr⟩ := hrb
              subst hreq
              have hexp2 : expandFrom (some c) (lfB :: rest2)
                  = crB :: lfB :: expandFrom (some lfB) rest2 := by
                rw [expandFrom, if_pos (by simp [isByte, hccr])]
              by_cases hsens : c = quoteB ∧ d.isWithinComment = false
                  ∧ d.isWithinExplicitQuote = false ∧ d.isWithinInferredQuote = true
                  ∧ isByte (some lfB) d.delimiter ≠ isByte (some crB) d.delimiter
              · obtain ⟨hcq, hcom, hexq, hinf, hnid⟩ := hsens
                subst hcq
                have hterm1 : nextTerm d.delimiter quoteB (some crB) (some lfB) = true := by
                  simp [nextTerm, isByte]
                have hterm2 : nextTerm d.delimiter quoteB (some lfB) rest2.head? = true := by
                  simp [nextTerm, isByte]
                have hsL := readStep_quote_inferred p (some crB) (some lfB) d
                  hcomp2 hcom hexq hinf hterm1
                have hsR := readStep_quote_inferred p (some lfB) rest2.head? d
                  hcomp2 hcom hexq hinf hterm2
                have hc1f : (startDataLine { d with lineSize := d.lineSize + 1 }).1.complete
                    = false := by
                  simp [hcomp2]
                have hc2f : ({ (startDataLine { d with lineSize := d.lineSize + 1 }).1 with
                    isWithinInferredQuote := false,
                    quoteCount :=
                      (startDataLine { d with lineSize := d.lineSize + 1 }).1.quoteCount + 2 }
                      : DetectState).complete = false := hc1f
                have hiq := handleNewline_iq (startDataLine { d with lineSize := d.lineSize + 1 }).1
                  false ((startDataLine { d with lineSize := d.lineSize + 1 }).1.quoteCount + 2)
                  (by simp [hexq]) (startDataLine_lineHasData _)
                by_cases hdc : isByte (some crB) d.delimiter = true
                · have hdl : isByte (some lfB) d.delimiter = false := by
                    cases hx : isByte (some lfB) d.delimiter
                    · rfl
                    · exact absurd (hx.trans hdc.symm) hnid
                  have hstL : readStep p quoteB (some crB) (some lfB) d
                      = ({ (startDataLine { d with lineSize := d.lineSize + 1 }).1 with
                            isWithinInferredQuote := false,
                            quoteCount :=
                              (startDataLine { d with lineSize := d.lineSize + 1 }).1.quoteCount
                                + 2 }, 0) := by
                    rw [hsL, if_pos hdc]
                  have hstR : readStep p quoteB (some lfB) rest2.head? d
                      = ((startDataLine { d with lineSize := d.lineSize + 1 }).1, 0) := by
                    rw [hsR, if_neg (by simp [hdl])]
                  have hL : runScan p (quoteB :: expandFrom (some quoteB) (lfB :: rest2)) d
                      = runScan (some lfB) (expandFrom (some lfB) rest2)
                          (handleNewline
                            { (startDataLine { d with lineSize := d.lineSize + 1 }).1 with
                                isWithinInferredQuote := false,
                                quoteCount :=
                                  (startDataLine
                                    { d with lineSize := d.lineSize + 1 }).1.quoteCount + 2 }) := by
                    rw [hexp2]
                    conv_lhs => rw [runScan]
                    simp only [List.head?_cons]
                    rw [hstL]
                    dsimp only
                    rw [if_pos (rfl : (0 : Nat) = 0)]
                    rw [runScan_cons_crlf _ _ _ hc2f]
                  have hR : runScan p (quoteB :: lfB :: rest2) d
                      = runScan (some lfB) rest2
                          (handleNewline
                            (startDataLine { d with lineSize := d.lineSize + 1 }).1) := by
                    conv_lhs => rw [runScan]
                    rw [hstR]
                    dsimp only
                    rw [if_pos (rfl : (0 : Nat) = 0)]
                    rw [runScan_cons_lf _ _ _ hc1f (by simp [isByte])]
                  rcases hiq with heq | ⟨hca, hcb, hres⟩
                  · rw [hL, hR, heq]
                    exact ih rest2 (some lfB)
                      (handleNewline (startDataLine { d with lineSize := d.lineSize + 1 }).1)
                      hlen2 (fun habs => absurd habs (by simp [isByte]))
                  · rw [hL, hR]
                    rw [runScan_complete _ _ _ hca, runScan_complete _ _ _ hcb]
                    exact Or.inr ⟨hca, hcb, hres⟩
                · have hdcf : isByte (some crB) d.delimiter = false := Bool.eq_false_iff.2 hdc
                  have hdl : isByte (some lfB) d.delimiter = true := by
                    cases hx : isByte (some lfB) d.delimiter
                    · exact absurd (hx.trans hdcf.symm) hnid
                    · rfl
                  have hstL : readStep p quoteB (some crB) (some lfB) d
                      = ((startDataLine { d with lineSize := d.lineSize + 1 }).1, 0) := by
                    rw [hsL, if_neg (by simp [hdcf])]
                  have hstR : readStep p quoteB (some lfB) rest2.head? d
                      = ({ (startDataLine { d with lineSize := d.lineSize + 1 }).1 with
                            isWithinInferredQuote := false,
                            quoteCount :=
                              (startDataLine { d with lineSize := d.lineSize + 1 }).1.quoteCount
                                + 2 }, 0) := by
                    rw [hsR, if_pos hdl]
                  have hL : runScan p (quoteB :: expandFrom (some quoteB) (lfB :: rest2)) d
                      = runScan (some lfB) (expandFrom (some lfB) rest2)
                          (handleNewline
                            (startDataLine { d with lineSize := d.lineSize + 1 }).1) := by
                    rw [hexp2]
                    conv_lhs => rw [runScan]
                    simp only [List.head?_cons]
                    rw [hstL]
                    dsimp only
                    rw [if_pos (rfl : (0 : Nat) = 0)]
                    rw [runScan_cons_crlf _ _ _ hc1f]
                  have hR : runScan p (quoteB :: lfB :: rest2) d
                      = runScan (some lfB) rest2
                          (handleNewline
                            { (startDataLine { d with lineSize := d.lineSize + 1 }).1 with
                                isWithinInferredQuote := false,
                                quoteCount :=
                                  (startDataLine
                                    { d with lineSize := d.lineSize + 1 }).1.quoteCount + 2 }) := by
                    conv_lhs => rw [runScan]
                    rw [hstR]
                    dsimp only
                    rw [if_pos (rfl : (0 : Nat) = 0)]
                    rw [runScan_cons_lf _ _ _ hc2f (by simp [isByte])]
                  rcases hiq with heq | ⟨hca, hcb, hres⟩
                  · rw [hL, hR, heq]
                    exact ih rest2 (some lfB)
                      (handleNewline (startDataLine { d with lineSize := d.lineSize + 1 }).1)
                      hlen2 (fun habs => absurd habs (by simp [isByte]))
                  · rw [hL, hR]
                    rw [runScan_complete _ _ _ hcb, runScan_complete _ _ _ hca]
                    exact Or.inr ⟨hcb, hca, hres.symm⟩
              · have hnid2 : c ≠ quoteB ∨ d.isWithinComment = true
                    ∨ d.isWithinExplicitQuote = true ∨ d.isWithinInferredQuote = false
                    ∨ isByte (some lfB) d.delimiter = isByte (some crB) d.delimiter := by
                  by_cases h1 : c = quoteB
                  · by_cases h2 : d.isWithinComment = true
                    · exact Or.inr (Or.inl h2)
                    · by_cases h3 : d.isWithinExplicitQuote = true
                      · exact Or.inr (Or.inr (Or.inl h3))
                      · by_cases h4 : d.isWithinInferredQuote = true
                        · refine Or.inr (Or.inr (Or.inr (Or.inr ?_)))
                          by_contra h5
                          exact hsens ⟨h1, Bool.eq_false_iff.2 h2, Bool.eq_false_iff.2 h3, h4, h5⟩
                        · exact Or.inr (Or.inr (Or.inr (Or.inl (Bool.eq_false_iff.2 h4))))
                  · exact Or.inl h1
                have hstep : readStep p c (some crB) (some lfB) d
                    = readStep p c (some lfB) rest2.head? d :=
                  readStep_crlf_nid p c rest2.head? d hc10 hccr hnid2
                have hsnd : (readStep p c (some lfB) rest2.head? d).2 = 0 :=
                  readStep_snd_zero _ _ _ _ _ (by simp [isByte, hccr]) (by simp [isByte])
                have hL : runScan p (c :: expandFrom (some c) (lfB :: rest2)) d
                    = runScan (some c) (expandFrom (some c) (lfB :: rest2))
                        (readStep p c (some lfB) rest2.head? d).1 := by
                  rw [hexp2]
                  conv_lhs => rw [runScan]
                  simp only [List.head?_cons]
                  rw [hstep, if_pos hsnd, ← hexp2]
                have hR : runScan p (c :: lfB :: rest2) d
                    = runScan (some c) (lfB :: rest2)
                        (readStep p c (some lfB) rest2.head? d).1 := by
                  conv_lhs => rw [runScan]
                  rw [if_pos hsnd]
                rw [hL, hR]
                exact ih (lfB :: rest2) (some c)
                  (readStep p c (some lfB) rest2.head? d).1 hlen1
                  (fun habs => absurd habs (by simp [isByte, hccr]))
            · have hexp2 : expandFrom (some c) (r :: rest2)
                  = r :: expandFrom (some r) rest2 := by
                rw [expandFrom]
                rw [if_neg ?_]
                by_cases hr : r = lfB
                · have hccr : c = crB := by
                    by_contra hx
                    exact hrb ⟨hr, hx⟩
                  simp [hr, hccr, isByte]
                · simp [hr]
              have hstep : readStep p c (some r) (expandFrom (some r) rest2).head? d
                  = readStep p c (some r) rest2.head? d := by
                cases rest2 with
                | nil => rfl
                | cons t rest3 =>
                  by_cases htb : t = lfB ∧ isByte (some r) crB = false
                  · obtain ⟨hteq, hrcr⟩ := htb
                    subst hteq
                    rw [show expandFrom (some r) (lfB :: rest3)
                        = crB :: lfB :: expandFrom (some lfB) rest3 from by
                      rw [expandFrom, if_pos (by simp [hrcr])]]
                    have hrcr2 : r ≠ crB := by simpa [isByte] using hrcr
                    apply readStep_congr
                    · simp [mkCtx, nextTerm, isByte, hrcr2]
                    · rfl
                  · by_cases ht10 : t = lfB
                    · have hrcr : isByte (some r) crB = true := by
                        by_contra hx
                        exact htb ⟨ht10, Bool.eq_false_iff.2 hx⟩
                      subst ht10
                      rw [show expandFrom (some r) (lfB :: rest3)
                          = lfB :: expandFrom (some lfB) rest3 from by
                        rw [expandFrom, if_neg (by simp [hrcr])]]
                      rfl
                    · rw [show expandFrom (some r) (t :: rest3)
                          = t :: expandFrom (some t) rest3 from by
                        rw [expandFrom, if_neg (by simp [ht10])]]
                      rfl
              by_cases hoff : (readStep p c (some r) rest2.head? d).2 = 0
              · have hL : runScan p (c :: expandFrom (some c) (r :: rest2)) d
                    = runScan (some c) (expandFrom (some c) (r :: rest2))
                        (readStep p c (some r) rest2.head? d).1 := by
                  rw [hexp2]
                  conv_lhs => rw [runScan]
                  rw [hstep, if_pos hoff, ← hexp2]
                have hR : runScan p (c :: r :: rest2) d
                    = runScan (some c) (r :: rest2)
                        (readStep p c (some r) rest2.head? d).1 := by
                  conv_lhs => rw [runScan]
                  rw [if_pos hoff]
                rw [hL, hR]
                refine ih (r :: rest2) (some c)
                  (readStep p c (some r) rest2.head? d).1 hlen1 ?_
                intro hccr habs
                have hceq : c = crB := by simpa [isByte] using hccr
                have hreq : r = lfB := by
                  simp only [List.head?_cons, Option.some.injEq] at habs
                  exact habs
                subst hceq
                subst hreq
                rw [readStep_windows _ _ _ hcomp2] at hoff
                simp at hoff
              · have hL : runScan p (c :: expandFrom (some c) (r :: rest2)) d
                    = runScan (some r) (expandFrom (some r) rest2)
                        (readStep p c (some r) rest2.head? d).1 := by
                  rw [hexp2]
                  conv_lhs => rw [runScan]
                  rw [hstep, if_neg hoff]
                have hR : runScan p (c :: r :: rest2) d
                    = runScan (some r) rest2
                        (readStep p c (some r) rest2.head? d).1 := by
                  conv_lhs => rw [runScan]
                  rw [if_neg hoff]
                rw [hL, hR]
                refine ih rest2 (some r)
                  (readStep p c (some r) rest2.head? d).1 hlen2 ?_
                intro hrcr
                exfalso
                rcases readStep_snd_ne_zero _ _ _ _ _ hoff with hlf | hqt
                · have h1 : r = lfB := by simpa [isByte] using hlf
                  have h2 : r = crB := by simpa [isByte] using hrcr
                  rw [h1] at h2
                  exact absurd h2 (by decide)
                · have h1 : r = quoteB := by simpa [isByte] using hqt
                  have h2 : r = crB := by simpa [isByte] using hrcr
                  rw [h1] at h2
                  exact absurd h2 (by decide)

/-- C7 counterexample: with a positive byte limit the equivalence fails —
expanding bare line feeds to CRLF pairs shifts which bytes fall inside the
limit: Detect("a,b\nc,d\nxx", ',', 6) = true but on the CRLF-expanded input
it is false. -/
theorem detect_crlf_counterexample :
    Detect vecC7 44 6 = true ∧ Detect (expandCRLF vecC7) 44 6 = false :=
  ⟨by decide, by decide⟩

/-- C7 amended: with limit 0, for every input and every delimiter, replacing
every bare line feed by a CRLF pair does not change Detect (windows and
linux line endings are counted identically); and a trailing lone carriage
return whose previous byte is a line feed and which has no following byte is
skipped entirely: the read step leaves the state unchanged and consumes
nothing extra. -/
theorem detect_crlf_equivalence :
    (∀ (raw : List Nat) (delimiter : Nat),
      Detect (expandCRLF raw) delimiter 0 = Detect raw delimiter 0) ∧
    (∀ d : DetectState, readStep (some lfB) crB none none d = (d, 0)) := by
  constructor
  · intro raw delimiter
    have hprep : ∀ l : List Nat, prepSvReader l 0 = l := by
      intro l
      simp [prepSvReader, DropLastLine]
    simp only [Detect, hprep]
    rw [show expandCRLF raw = expandFrom none raw from rfl]
    rcases scan_expandFrom_gen raw.length raw none
      (newDetectState delimiter (if (0 : Nat) > 0 then -1 else (svLineLimit : Int)))
      (Nat.le_refl _) (fun habs => absurd habs (by simp [isByte])) with heq | ⟨hc1, hc2, hres⟩
    · rw [heq]
    · rw [hres]
  · intro d
    rw [readStep]
    split
    · rfl
    · rw [if_pos (by simp [isByte])]
